import Mathlib

/-!
Verification development for the `socialrss` feed aggregator (`src/index.js`).

The JavaScript source is shallowly embedded below.  JS strings are Lean
`String`s; absent (`undefined`/`null`) values are `Option`; JS truthiness of
strings ("" is falsy) is made explicit through `truthyS`/`truthyO`/`jsOr`.
Dates are modelled as `Option Int`: `some t` is a valid `Date` holding the
timestamp `t`, `none` is an Invalid Date (`NaN` time value).  The JS `Date`
string parser is an external builtin, so every definition that parses a date
string is parameterised by `dp : String → Option Int` (`none` = `NaN`).
The regex scans of `pickImage`/`pickVideo` and the tag-stripping replace of
`buildFeeds` are embedded as character-list scanners reproducing the
leftmost-match, greedy-with-backtracking semantics of the JS regexes.
-/

namespace SocialRSS

/-- JS truthiness of a string: `""` is falsy, everything else truthy. -/
def truthyS (s : String) : Bool := !s.data.isEmpty

/-- JS truthiness of a possibly-absent string (`undefined`/`null` falsy). -/
def truthyO : Option String → Bool
  | some s => truthyS s
  | none => false

/-- JS `a || b` where `a` may be absent and `b` is a string default. -/
def jsOr (a : Option String) (b : String) : String :=
  match a with
  | some s => if s.data.isEmpty then b else s
  | none => b

/-- JS `a || b` on two possibly-absent strings: first truthy operand, else `none`. -/
def jsOrO (a b : Option String) : Option String :=
  if truthyO a then a else if truthyO b then b else none

/-- Whitespace for JS `String.prototype.trim` and the regex class `\s`. -/
def jsWS (c : Char) : Bool :=
  c = ' ' ∨ c = '\t' ∨ c = '\n' ∨ c = '\r' ∨ c = '\x0b' ∨ c = '\x0c' ∨
  c = ' ' ∨ c = '﻿'

/-- JS `String.prototype.trim`: strip leading and trailing whitespace. -/
def jsTrim (s : String) : String :=
  ⟨((s.data.dropWhile jsWS).reverse.dropWhile jsWS).reverse⟩

/-- Character-list test: `pat` is a prefix of `s` (exact characters). -/
def chPre : List Char → List Char → Bool
  | [], _ => true
  | _ :: _, [] => false
  | a :: pat, b :: s => a = b && chPre pat s

/-- Character-list test: `pat` is a prefix of `s` up to `Char.toLower`
(JS case-insensitive `i` flag; the patterns used are ASCII). -/
def chPreCI : List Char → List Char → Bool
  | [], _ => true
  | _ :: _, [] => false
  | a :: pat, b :: s => a.toLower = b.toLower && chPreCI pat s

/-- Character-list test: `pat` occurs somewhere in `s`. -/
def chSub (pat : List Char) : List Char → Bool
  | [] => chPre pat []
  | c :: rest => chPre pat (c :: rest) || chSub pat rest

/-- JS `s.includes(pat)` (exact, case-sensitive). -/
def jsIncludes (s pat : String) : Bool := chSub pat.data s.data

/-- JS `s.startsWith(pat)` (exact, case-sensitive). -/
def strStarts (s pat : String) : Bool := chPre pat.data s.data

/-- Tail of the `<img[^>]+src=["']([^"']+)["']` regex: an opening quote, a
nonempty run of non-quote characters (the capture), and a closing quote. -/
def matchQuoted : List Char → Option (List Char)
  | [] => none
  | q :: rest =>
    if q = '"' ∨ q = '\'' then
      let run := rest.takeWhile (fun d => !(d = '"' ∨ d = '\''))
      if run.isEmpty then none
      else
        match rest.drop run.length with
        | c :: _ => if c = '"' ∨ c = '\'' then some run else none
        | [] => none
    else none

/-- Matches `src=["']([^"']+)["']` at the head of `u` (case-insensitive on
`src=`), returning the capture. -/
def srcEqCapture (u : List Char) : Option (List Char) :=
  if chPreCI "src=".data u then matchQuoted (u.drop 4) else none

/-- Greedy `[^>]+src=["']([^"']+)["']` against `t`: the regex engine picks the
largest split point `i ≥ 1` whose prefix contains no `>` and at which the
`src=` tail matches. -/
def imgGreedy (t : List Char) : Option (List Char) :=
  (((List.range (t.length + 1)).filter (fun i =>
      decide (1 ≤ i) && (t.take i).all (fun c => !(c = '>')) &&
      (srcEqCapture (t.drop i)).isSome)).getLast?).bind
    (fun i => srcEqCapture (t.drop i))

/-- Leftmost match of `/<img[^>]+src=["']([^"']+)["']/i` over a character
list, returning capture group 1 (the `src` URL). -/
def imgScanList : List Char → Option (List Char)
  | [] => none
  | c :: rest =>
    if chPreCI "<img".data (c :: rest) then
      match imgGreedy rest.tail.tail.tail with
      | some cap => some cap
      | none => imgScanList rest
    else imgScanList rest

/-- `html.match(/<img[^>]+src=["']([^"']+)["']/i)` returning `m[1]`. -/
def imgScanStr (s : String) : Option String :=
  (imgScanList s.data).map (fun l => ⟨l⟩)

/-- Matches `https?:\/\/` at the head of `s` (case-insensitive), returning the
consumed protocol characters and the remainder. -/
def matchHttp (s : List Char) : Option (List Char × List Char) :=
  if chPreCI "https://".data s then some (s.take 8, s.drop 8)
  else if chPreCI "http://".data s then some (s.take 7, s.drop 7)
  else none

/-- Matches `\.(mp4|webm)` at the head of `u` (case-insensitive), returning
the extension exactly as written in the text (capture group 2). -/
def extAt : List Char → Option (List Char)
  | '.' :: tl =>
    if chPreCI "mp4".data tl then some (tl.take 3)
    else if chPreCI "webm".data tl then some (tl.take 4)
    else none
  | _ => none

/-- Greedy `[^\s"']+\.(mp4|webm)` against `t`: largest split point `i ≥ 1`
whose prefix avoids whitespace and quotes and is followed by a dot-extension.
Returns the body and the extension. -/
def vidGreedy (t : List Char) : Option (List Char × List Char) :=
  (((List.range (t.length + 1)).filter (fun i =>
      decide (1 ≤ i) && (t.take i).all (fun c => !(jsWS c ∨ c = '"' ∨ c = '\'')) &&
      (extAt (t.drop i)).isSome)).getLast?).bind
    (fun i => (extAt (t.drop i)).map (fun ext => (t.take i, ext)))

/-- Leftmost match of `/(https?:\/\/[^\s"']+\.(mp4|webm))/i`, returning
(group 1 = whole URL, group 2 = extension). -/
def videoScanList : List Char → Option (List Char × List Char)
  | [] => none
  | c :: rest =>
    match matchHttp (c :: rest) with
    | some (proto, t) =>
      match vidGreedy t with
      | some (body, ext) => some (proto ++ body ++ '.' :: ext, ext)
      | none => videoScanList rest
    | none => videoScanList rest

/-- `s.match(/(https?:\/\/[^\s"']+\.(mp4|webm))/i)` returning `(m[1], m[2])`. -/
def videoScanStr (s : String) : Option (String × String) :=
  (videoScanList s.data).map (fun p => (⟨p.1⟩, ⟨p.2⟩))

/-- A `media:content`/`media:thumbnail` entry's `$` attribute object. -/
structure MediaAttr where
  url : Option String
  deriving DecidableEq, Repr

/-- One entry of an rss-parser `author`-style array: `{name, link}`. -/
structure AuthorRec where
  name : Option String
  link : Option String
  deriving DecidableEq, Repr

/-- An RSS enclosure / JSON Feed attachment descriptor as it appears on a raw
item: both fields may be absent. -/
structure Enclosure where
  url : Option String
  type : Option String
  deriving DecidableEq, Repr

/-- A raw item as handed to the normalizer: the union of the fields the code
reads from rss-parser output and from the JSON-Feed mapping.  `Option` marks
fields that may be `undefined`.  `contentEncodedAlt` is the
`item["content:encoded"]` key read in `pickImage`; `mediaGroup` holds
`JSON.stringify(item.mediaGroup)` (the only form the code consumes),
with `none` when the field is absent or not an array. -/
structure RawItem where
  title : Option String := none
  link : Option String := none
  guid : Option String := none
  isoDate : Option String := none
  pubDate : Option String := none
  content : Option String := none
  contentEncoded : Option String := none
  contentEncodedAlt : Option String := none
  contentSnippet : Option String := none
  enclosure : Option Enclosure := none
  mediaContent : Option (List (Option MediaAttr)) := none
  mediaThumbnail : Option (List (Option MediaAttr)) := none
  mediaGroup : Option String := none
  image : Option String := none
  author : Option (List AuthorRec) := none
  creator : Option String := none
  _source : Option String := none
  deriving DecidableEq, Repr

/-- A discovered video reference `{url, type}` as returned by `pickVideo`. -/
structure MediaRef where
  url : String
  type : String
  deriving DecidableEq, Repr

/-- The canonical item produced by the normalization step of `refresh`. -/
structure Item where
  title : String
  link : String
  date : Option Int
  description : String
  authorName : String
  imageUrl : Option String
  video : Option MediaRef
  enclosure : Option Enclosure
  source : Option String
  deriving DecidableEq, Repr

/-- The aggregator cache `{items, lastBuild}`. -/
structure Cache where
  items : List Item
  lastBuild : Int
  deriving DecidableEq, Repr

/-- `pickImage` step 1: an enclosure with a (truthy) URL whose declared type
starts with `image/`. -/
def imageFromEnclosure (it : RawItem) : Option String :=
  match it.enclosure with
  | some e =>
    if truthyO e.url && strStarts (jsOr e.type "") "image/" then e.url else none
  | none => none

/-- First `$.url` of a media tag array, with the JS guard chain
`arr && arr[0] && arr[0]["$"] && arr[0]["$"].url`. -/
def mediaAttrUrl : Option (List (Option MediaAttr)) → Option String
  | some (some a :: _) => a.url
  | _ => none

/-- `pickImage` step 2: `mediaContent[0].$.url || mediaThumbnail[0].$.url`,
kept only if truthy. -/
def imageFromMedia (it : RawItem) : Option String :=
  jsOrO (mediaAttrUrl it.mediaContent) (mediaAttrUrl it.mediaThumbnail)

/-- `pickImage` step 3: first `<img src="...">` occurrence in
`item.contentEncoded || item["content:encoded"] || item.content || ""`. -/
def imageFromHtml (it : RawItem) : Option String :=
  imgScanStr (jsOr it.contentEncoded (jsOr it.contentEncodedAlt (jsOr it.content "")))

/-- `pickImage` step 4: the JSON-Feed style `image` field, if truthy. -/
def imageFromJSONField (it : RawItem) : Option String :=
  if truthyO it.image then it.image else none

/-- `pickImage(item)`: best-guess image URL, first matching rule wins. -/
def pickImage (it : RawItem) : Option String :=
  match imageFromEnclosure it with
  | some u => some u
  | none =>
    match imageFromMedia it with
    | some u => some u
    | none =>
      match imageFromHtml it with
      | some u => some u
      | none => imageFromJSONField it

/-- `pickVideo` step 1: an enclosure with a (truthy) URL whose declared type
starts with `video/`; returned with its declared type. -/
def videoFromEnclosure (it : RawItem) : Option MediaRef :=
  match it.enclosure with
  | some e =>
    if truthyO e.url && strStarts (jsOr e.type "") "video/" then
      some { url := e.url.getD "", type := e.type.getD "" }
    else none
  | none => none

/-- `pickVideo` step 2: scan `JSON.stringify(item.mediaGroup)` for a direct
`.mp4`/`.webm` URL; type is `video/` plus the matched extension. -/
def videoFromMediaGroup (it : RawItem) : Option MediaRef :=
  match it.mediaGroup with
  | some g =>
    (videoScanList g.data).map
      (fun p => { url := ⟨p.1⟩, type := "video/" ++ (⟨p.2⟩ : String) })
  | none => none

/-- `pickVideo` step 3: a (truthy) link containing `youtube.com/watch`,
returned with type `text/html`. -/
def videoFromLink (it : RawItem) : Option MediaRef :=
  match it.link with
  | some l =>
    if truthyS l && jsIncludes l "youtube.com/watch" then
      some { url := l, type := "text/html" }
    else none
  | none => none

/-- `pickVideo` step 4: scan `item.contentEncoded || item.content || ""` for a
direct `.mp4`/`.webm` URL. -/
def videoFromContent (it : RawItem) : Option MediaRef :=
  (videoScanList (jsOr it.contentEncoded (jsOr it.content "")).data).map
    (fun p => { url := ⟨p.1⟩, type := "video/" ++ (⟨p.2⟩ : String) })

/-- `pickVideo(item)`: best-guess video reference, first matching rule wins. -/
def pickVideo (it : RawItem) : Option MediaRef :=
  match videoFromEnclosure it with
  | some v => some v
  | none =>
    match videoFromMediaGroup it with
    | some v => some v
    | none =>
      match videoFromLink it with
      | some v => some v
      | none => videoFromContent it

/-- `it.author && it.author[0] && it.author[0].name`. -/
def authorHeadName : Option (List AuthorRec) → Option String
  | some (a :: _) => a.name
  | _ => none

/-- The normalization step of `refresh`, one raw item to one canonical item.
`dp` models the JS `Date` string parser, `now` models `Date.now()`. -/
def normalizeItem (dp : String → Option Int) (now : Int) (it : RawItem) : Item :=
  { title := jsOr it.title "(untitled)"
    link := jsOr it.link (jsOr it.guid "")
    date :=
      match jsOrO it.isoDate it.pubDate with
      | some s => dp s
      | none => some now
    description := jsOr it.contentEncoded (jsOr it.content (jsOr it.contentSnippet ""))
    authorName := jsOr it.creator (jsOr (authorHeadName it.author) "")
    imageUrl := pickImage it
    video := pickVideo it
    enclosure :=
      match it.enclosure with
      | some e => if truthyO e.url then some e else none
      | none => none
    source := it._source }

/-- Map + filter stage of `refresh`: normalize every collected raw item and
keep those with a truthy `link`. -/
def normalizePass (dp : String → Option Int) (now : Int) (collected : List RawItem) :
    List Item :=
  (collected.map (normalizeItem dp now)).filter (fun it => truthyS it.link)

/-- The dedup loop of `refresh`: `seen` is the set of already-kept trimmed
link keys; an item is skipped when its key is empty or already seen. -/
def dedupeAux (seen : List String) : List Item → List Item
  | [] => []
  | it :: rest =>
    let key := jsTrim it.link
    if !truthyS key || seen.contains key then dedupeAux seen rest
    else it :: dedupeAux (key :: seen) rest

/-- Deduplication by canonical (trimmed) link, as in `refresh`. -/
def dedupe (l : List Item) : List Item := dedupeAux [] l

/-- The sort order induced by the comparator `(a, b) => b.date - a.date`:
`itemLE a b` says the comparator result is `≤ 0`, so `a` may come before `b`.
A `NaN` subtraction (either date invalid) compares neither `< 0` nor `> 0`,
which the sort treats as equal, hence `true` here. -/
def itemLE (a b : Item) : Bool :=
  match a.date, b.date with
  | some x, some y => decide (y ≤ x)
  | _, _ => true

/-- Stable insertion into a sorted list (earlier elements stay before
comparator-equal later ones). -/
def jsInsert (le : α → α → Bool) (a : α) : List α → List α
  | [] => [a]
  | b :: l => if le a b then a :: b :: l else b :: jsInsert le a l

/-- A stable comparison sort, modelling JS `Array.prototype.sort` (stable per
ES2019; on a consistent comparator any stable sort produces the same list). -/
def jsSortBy (le : α → α → Bool) : List α → List α
  | [] => []
  | a :: l => jsInsert le a (jsSortBy le l)

/-- A JSON Feed attachment. -/
structure JFAttachment where
  url : Option String := none
  mime_type : Option String := none
  deriving DecidableEq, Repr

/-- A JSON Feed `author` object. -/
structure JFAuthor where
  name : Option String := none
  url : Option String := none
  deriving DecidableEq, Repr

/-- A JSON Feed item, with the fields the adapter reads. -/
structure JFItem where
  title : Option String := none
  url : Option String := none
  external_url : Option String := none
  date_published : Option String := none
  date_modified : Option String := none
  content_html : Option String := none
  content_text : Option String := none
  summary : Option String := none
  attachments : Option (List JFAttachment) := none
  image : Option String := none
  banner_image : Option String := none
  author : Option JFAuthor := none
  deriving DecidableEq, Repr

/-- A parsed JSON body as far as the adapter inspects it: its `title` and its
top-level `items` (`none` when there is no `items` array). -/
structure JSONBody where
  title : Option String := none
  items : Option (List JFItem) := none
  deriving DecidableEq, Repr

/-- A fetch response: the declared `content-type` header (`none` when the
header is missing) and the result of `res.json()` — outer `none` when the
body is not parseable JSON (`res.json()` throws), inner `none` when it parses
to a falsy value such as `null`. -/
structure FetchResponse where
  contentType : Option String := none
  body : Option (Option JSONBody) := none
  deriving DecidableEq, Repr

/-- The result of `parser.parseURL` on the XML path. -/
structure XMLFeed where
  title : Option String := none
  items : List RawItem := []
  deriving DecidableEq, Repr

/-- The value returned by a successful `tryParseJSONFeed`. -/
structure JFFeed where
  title : String
  items : List RawItem
  deriving DecidableEq, Repr

/-- One configured source together with the outcome of its two fetch
attempts this cycle: `fetchResult = none` models `fetch` throwing, and
`xmlResult = none` models `parser.parseURL` throwing (network or XML parse
failure). -/
structure SourceSim where
  url : String
  fetchResult : Option FetchResponse := none
  xmlResult : Option XMLFeed := none
  deriving DecidableEq, Repr

/-- The JSON-Feed-to-rss-parser item mapping inside `tryParseJSONFeed`.
`nowStr` models `new Date().toISOString()`. -/
def jfToRaw (nowStr : String) (url : String) (it : JFItem) : RawItem :=
  { title := some (jsOr it.title "(untitled)")
    link := some (jsOr it.url (jsOr it.external_url ""))
    isoDate := some (jsOr it.date_published (jsOr it.date_modified nowStr))
    content := some (jsOr it.content_html (jsOr it.content_text ""))
    contentSnippet := some (jsOr it.summary "")
    enclosure :=
      match it.attachments with
      | some (a :: _) => some { url := a.url, type := some (jsOr a.mime_type "") }
      | _ => none
    image := jsOrO it.image it.banner_image
    author :=
      match it.author with
      | some a =>
        if truthyO a.name || truthyO a.url then some [{ name := a.name, link := a.url }]
        else some []
      | none => some []
    _source := some url }

/-- `tryParseJSONFeed(url)`: `none` on any failure (fetch throw, non-JSON
content type, unparseable body, falsy parse result, missing `items` array),
else the adapted feed. -/
def tryParseJSONFeed (nowStr : String) (s : SourceSim) : Option JFFeed :=
  match s.fetchResult with
  | none => none
  | some res =>
    let ct := jsOr res.contentType ""
    if !(jsIncludes ct "application/json" || jsIncludes ct "text/json") then none
    else
      match res.body with
      | none => none
      | some none => none
      | some (some data) =>
        match data.items with
        | none => none
        | some items =>
          some { title := jsOr data.title s.url
                 items := items.map (jfToRaw nowStr s.url) }

/-- `it._source = src`. -/
def tagSource (url : String) (it : RawItem) : RawItem := { it with _source := some url }

/-- One iteration of the source loop in `refresh`: JSON path when
`tryParseJSONFeed` succeeds, else the XML path, else (both failed, logged)
zero items. -/
def collectOne (nowStr : String) (s : SourceSim) : List RawItem :=
  match tryParseJSONFeed nowStr s with
  | some jf => jf.items.map (tagSource s.url)
  | none =>
    match s.xmlResult with
    | some feed => feed.items.map (tagSource s.url)
    | none => []

/-- The full collection loop of `refresh` over all sources. -/
def collectAll (nowStr : String) (sources : List SourceSim) : List RawItem :=
  (sources.map (collectOne nowStr)).flatten

/-- `refresh()`: collect, normalize, filter, dedupe by trimmed link, sort by
date descending, install the new cache.  `now` models this cycle's clock
(`Date.now()` and the `lastBuild` stamp), `nowStr` its ISO form. -/
def refresh (dp : String → Option Int) (now : Int) (nowStr : String)
    (sources : List SourceSim) : Cache :=
  { items := jsSortBy itemLE (dedupe (normalizePass dp now (collectAll nowStr sources)))
    lastBuild := now }

/-- Helper for the `<[^>]+>` tag match: scan for the first `>` and return the
remainder after it. -/
def tagEndGo : List Char → Option (List Char)
  | [] => none
  | d :: rest => if d = '>' then some rest else tagEndGo rest

/-- Matches `[^>]+>` at the head of `l` (at least one non-`>` character, then
`>`), returning the remainder after the closing `>`. -/
def tagEnd : List Char → Option (List Char)
  | [] => none
  | d :: rest => if d = '>' then none else tagEndGo rest

/-- Global replace of `/<[^>]+>/g`: drop every maximal `<`…`>` tag (with a
nonempty inside), keep all other characters. -/
def stripTagsAux : List Char → List Char
  | [] => []
  | c :: rest =>
    if c = '<' then
      match h : tagEnd rest with
      | some after => stripTagsAux after
      | none => c :: stripTagsAux rest
    else c :: stripTagsAux rest
  termination_by cs => cs.length
  decreasing_by
    · have hgo : ∀ (l after : List Char), tagEndGo l = some after →
          after.length < l.length := by
        intro l
        induction l with
        | nil => intro after h'; simp [tagEndGo] at h'
        | cons d rest ih =>
          intro after h'
          by_cases hd : d = '>'
          · simp [tagEndGo, hd] at h'
            subst h'
            simp
          · simp [tagEndGo, hd] at h'
            have := ih after h'
            simp
            omega
      have hlt : after.length < rest.length := by
        cases rest with
        | nil => simp [tagEnd] at h
        | cons d tl =>
          by_cases hd : d = '>'
          · simp [tagEnd, hd] at h
          · simp [tagEnd, hd] at h
            have := hgo tl after h
            simp
            omega
      simp only [List.length_cons]
      omega
    · simp
    · simp

/-- `s.replace(/<[^>]+>/g, "")`. -/
def stripTags (s : String) : String := ⟨stripTagsAux s.data⟩

/-- `s.slice(0, n)` (for our ASCII-range strings, code units = characters). -/
def jsSlice (s : String) (n : Nat) : String := ⟨s.data.take n⟩

/-- JS template interpolation of a possibly-undefined string. -/
def jsTemplate : Option String → String
  | some s => s
  | none => "undefined"

/-- The enclosure chosen per rendered item: `{url, type}` with the url kept
optional (the pass-through enclosure may lack one). -/
structure EnclosureOut where
  url : Option String
  type : String
  deriving DecidableEq, Repr

/-- The argument record built for `feed.addItem` per cache item. -/
structure FeedEntry where
  id : String
  title : String
  link : String
  date : Option Int
  description : String
  content : String
  author : Option (List AuthorRec)
  enclosure : Option EnclosureOut
  deriving DecidableEq, Repr

/-- The content blocks concatenated for one item in `buildFeeds`. -/
def contentBlocksOf (item : Item) : List String :=
  (if truthyO item.imageUrl then
    ["<p><img src=\"" ++ item.imageUrl.getD "" ++ "\" alt=\"\" /></p>"]
  else []) ++
  (match item.video with
   | some v =>
     if strStarts v.type "video/" then
       ["<p><video controls src=\"" ++ v.url ++ "\" style=\"max-width:100%\"></video></p>"]
     else ["<p><a href=\"" ++ v.url ++ "\">Watch video</a></p>"]
   | none => []) ++
  (if truthyS item.description then [item.description] else []) ++
  ["<p><small>Source: " ++ jsTemplate item.source ++ "</small></p>"]

/-- The primary enclosure choice: video, else original enclosure, else image
with the `image/jpeg` default type. -/
def entryEnclosure (item : Item) : Option EnclosureOut :=
  match item.video with
  | some v => some { url := some v.url, type := v.type }
  | none =>
    match item.enclosure with
    | some e => some { url := e.url, type := jsOr e.type "" }
    | none =>
      if truthyO item.imageUrl then some { url := item.imageUrl, type := "image/jpeg" }
      else none

/-- The `feed.addItem({...})` record built for one cache item. -/
def entryOf (item : Item) : FeedEntry :=
  { id := item.link
    title := item.title
    link := item.link
    date := item.date
    description := jsSlice (stripTags item.description) 280
    content := String.intercalate "\n" (contentBlocksOf item)
    author := if truthyS item.authorName then some [{ name := some item.authorName, link := none }] else none
    enclosure := entryEnclosure item }

/-- The three rendered documents.  Modelled from the spec: the serializers
`feed.rss2()`, `feed.atom1()` and `feed.json1()` belong to the external
`feed` library, whose internals are out of scope; per the spec they emit
"three complete documents … all three describing the same underlying item
set and ordering, differing only in serialization", so a rendered document
is modelled by the sequence of entries it describes. -/
structure FeedDocs where
  rss : List FeedEntry
  atom : List FeedEntry
  json : List FeedEntry
  deriving DecidableEq, Repr

/-- `buildFeeds()`: build one entry per cache item, in cache order, and emit
the three documents over that same entry sequence. -/
def buildFeeds (c : Cache) : FeedDocs :=
  let entries := c.items.map entryOf
  { rss := entries, atom := entries, json := entries }

/-- JS `a.date >= b.date` on two `Date` values: false whenever either is an
Invalid Date (`NaN` compares false). -/
def dateGe (a b : Option Int) : Bool :=
  match a, b with
  | some x, some y => decide (x ≥ y)
  | _, _ => false

/-- Spec-side: every adjacent pair `a, b` satisfies `a.date >= b.date`. -/
def sortedByDateDesc : List Item → Bool
  | [] => true
  | [_] => true
  | a :: b :: l => dateGe a.date b.date && sortedByDateDesc (b :: l)

/-- Spec-side: no two items of the list share a trimmed link value. -/
def linksDistinct : List Item → Bool
  | [] => true
  | a :: l => l.all (fun b => !(decide (jsTrim a.link = jsTrim b.link))) && linksDistinct l

/-- Spec-side (from the amended C3): first-seen deduplication — an item whose
link trims to the empty string is dropped entirely; otherwise the first item
bearing a given trimmed key is kept and every later item with the same key is
dropped. -/
def dedupeSpec : List Item → List Item
  | [] => []
  | it :: rest =>
    if jsTrim it.link = "" then dedupeSpec rest
    else it :: dedupeSpec (rest.filter (fun j => !(decide (jsTrim j.link = jsTrim it.link))))
  termination_by l => l.length
  decreasing_by
    · simp
    · simp only [List.length_cons]
      have := List.length_filter_le (fun j => !(decide (jsTrim j.link = jsTrim it.link))) rest
      omega

/-- Spec-side: the condition under which, per the spec, the JSON-Feed
interpretation applies — the declared content type indicates a JSON media
type and the parsed body is an object with a top-level `items` array. -/
def jsonBranchApplies (s : SourceSim) : Prop :=
  ∃ res : FetchResponse, s.fetchResult = some res ∧
    (jsIncludes (jsOr res.contentType "") "application/json" ||
     jsIncludes (jsOr res.contentType "") "text/json") = true ∧
    ∃ data : JSONBody, res.body = some (some data) ∧ data.items.isSome = true

/-- A concrete instance of the JS date parser, for witnesses and
counterexamples: it parses exactly the two literal dates below and yields an
Invalid Date for everything else, as `new Date("not a date")` does. -/
def dpX : String → Option Int := fun s =>
  if s = "2024-01-02" then some 20240102 else
  if s = "2024-01-01" then some 20240101 else none

def rawBadDate : RawItem := { link := some "a", isoDate := some "not a date" }

def rawGoodDate : RawItem := { link := some "b", isoDate := some "2024-01-01" }

def rawA : RawItem := { link := some "a", isoDate := some "2024-01-01" }

def rawB : RawItem := { link := some "b", isoDate := some "2024-01-02" }

def srcBadDates : SourceSim :=
  { url := "u", xmlResult := some { items := [rawBadDate, rawGoodDate] } }

def srcGoodDates : SourceSim :=
  { url := "u", xmlResult := some { items := [rawA, rawB] } }

def rawWsLink : RawItem := { link := some " " }

def srcFailBoth : SourceSim := { url := "uf" }

def rawX : RawItem := { link := some "x" }

def srcJsonNoItems : SourceSim :=
  { url := "uj"
    fetchResult := some { contentType := some "application/json; charset=utf-8"
                          body := some (some { title := some "t" }) }
    xmlResult := some { items := [rawX] } }

def itemNull : Item :=
  { title := "t", link := "L", date := some 0, description := "d",
    authorName := "", imageUrl := none, video := none, enclosure := none,
    source := some "s" }

def itEncImg : RawItem :=
  { enclosure := some { url := some "http://e/x.png", type := some "image/png" },
    content := some "<p><img src=\"http://c/s.jpg\"></p>" }

def itEncVid : RawItem :=
  { enclosure := some { url := some "http://e/v.mp4", type := some "video/mp4" },
    link := some "https://www.youtube.com/watch?v=abc" }

def rawIsoOnly : RawItem := { link := some "a", isoDate := some "2024-01-01" }

def rawPubOnly : RawItem := { link := some "a", pubDate := some "2024-01-02" }

def rawNoDate : RawItem := { link := some "a" }

theorem jsInsert_perm (le : α → α → Bool) (a : α) (l : List α) :
    (jsInsert le a l).Perm (a :: l) := by
  induction l with
  | nil => exact List.Perm.refl _
  | cons b l ih =>
    simp only [jsInsert]
    by_cases h : le a b = true
    · simp [h]
    · rw [if_neg h]
      exact (ih.cons b).trans (List.Perm.swap a b l)

theorem jsSortBy_perm (le : α → α → Bool) (l : List α) :
    (jsSortBy le l).Perm l := by
  induction l with
  | nil => exact List.Perm.refl _
  | cons a l ih =>
    exact (jsInsert_perm le a (jsSortBy le l)).trans (ih.cons a)

theorem mem_jsSortBy {le : α → α → Bool} {l : List α} {x : α} :
    x ∈ jsSortBy le l ↔ x ∈ l :=
  (jsSortBy_perm le l).mem_iff

theorem pairwise_jsInsert (le : α → α → Bool) (a : α) (l : List α)
    (htrans : ∀ x ∈ a :: l, ∀ y ∈ a :: l, ∀ z ∈ a :: l,
      le x y = true → le y z = true → le x z = true)
    (htotal : ∀ x ∈ a :: l, ∀ y ∈ a :: l, le x y = true ∨ le y x = true)
    (hl : l.Pairwise (fun x y => le x y = true)) :
    (jsInsert le a l).Pairwise (fun x y => le x y = true) := by
  induction l with
  | nil => simp [jsInsert]
  | cons b l ih =>
    rw [List.pairwise_cons] at hl
    obtain ⟨hb, hl'⟩ := hl
    simp only [jsInsert]
    by_cases h : le a b = true
    · simp only [if_pos h]
      rw [List.pairwise_cons]
      refine ⟨?_, List.pairwise_cons.mpr ⟨hb, hl'⟩⟩
      intro x hx
      rcases List.mem_cons.mp hx with rfl | hx'
      · exact h
      · exact htrans a (by simp) b (by simp) x (by simp [hx']) h (hb x hx')
    · rw [if_neg h]
      rw [List.pairwise_cons]
      constructor
      · intro x hx
        rcases List.mem_cons.mp ((jsInsert_perm le a l).mem_iff.mp hx) with rfl | hx'
        · rcases htotal x (by simp) b (by simp) with h' | h'
          · exact absurd h' h
          · exact h'
        · exact hb x hx'
      · exact ih
          (fun x hx y hy z hz => htrans x (by
              rcases List.mem_cons.mp hx with rfl | hx'
              · simp
              · simp [hx']) y (by
              rcases List.mem_cons.mp hy with rfl | hy'
              · simp
              · simp [hy']) z (by
              rcases List.mem_cons.mp hz with rfl | hz'
              · simp
              · simp [hz']))
          (fun x hx y hy => htotal x (by
              rcases List.mem_cons.mp hx with rfl | hx'
              · simp
              · simp [hx']) y (by
              rcases List.mem_cons.mp hy with rfl | hy'
              · simp
              · simp [hy']))
          hl'

theorem pairwise_jsSortBy (le : α → α → Bool) (l : List α)
    (htrans : ∀ x ∈ l, ∀ y ∈ l, ∀ z ∈ l,
      le x y = true → le y z = true → le x z = true)
    (htotal : ∀ x ∈ l, ∀ y ∈ l, le x y = true ∨ le y x = true) :
    (jsSortBy le l).Pairwise (fun x y => le x y = true) := by
  induction l with
  | nil => simp [jsSortBy]
  | cons a l ih =>
    simp only [jsSortBy]
    have hmem : ∀ x ∈ a :: jsSortBy le l, x ∈ a :: l := by
      intro x hx
      rcases List.mem_cons.mp hx with rfl | hx'
      · simp
      · simp [mem_jsSortBy.mp hx']
    exact pairwise_jsInsert le a (jsSortBy le l)
      (fun x hx y hy z hz => htrans x (hmem x hx) y (hmem y hy) z (hmem z hz))
      (fun x hx y hy => htotal x (hmem x hx) y (hmem y hy))
      (ih
        (fun x hx y hy z hz => htrans x (by simp [hx]) y (by simp [hy]) z (by simp [hz]))
        (fun x hx y hy => htotal x (by simp [hx]) y (by simp [hy])))

theorem mem_dedupeAux {seen : List String} {l : List Item} {it : Item}
    (h : it ∈ dedupeAux seen l) :
    it ∈ l ∧ truthyS (jsTrim it.link) = true ∧ (jsTrim it.link) ∉ seen := by
  induction l generalizing seen with
  | nil => simp [dedupeAux] at h
  | cons a l ih =>
    simp only [dedupeAux] at h
    by_cases hg : (!truthyS (jsTrim a.link) || seen.contains (jsTrim a.link)) = true
    · rw [if_pos hg] at h
      obtain ⟨h1, h2, h3⟩ := ih h
      exact ⟨by simp [h1], h2, h3⟩
    · rw [if_neg hg] at h
      simp only [Bool.or_eq_true, not_or, Bool.not_eq_true, Bool.not_eq_true',
        Bool.not_eq_false, List.elem_eq_mem, decide_eq_true_eq, decide_eq_false_iff_not] at hg
      rcases List.mem_cons.mp h with rfl | h'
      · exact ⟨by simp, hg.1, hg.2⟩
      · obtain ⟨h1, h2, h3⟩ := ih h'
        refine ⟨by simp [h1], h2, fun hmem => h3 (by simp [hmem])⟩

theorem pairwise_dedupeAux (seen : List String) (l : List Item) :
    (dedupeAux seen l).Pairwise (fun a b => jsTrim a.link ≠ jsTrim b.link) := by
  induction l generalizing seen with
  | nil => simp [dedupeAux]
  | cons a l ih =>
    simp only [dedupeAux]
    split
    · exact ih seen
    · rw [List.pairwise_cons]
      refine ⟨?_, ih _⟩
      intro b hb
      obtain ⟨_, _, h3⟩ := mem_dedupeAux hb
      intro hEq
      exact h3 (by simp [hEq])

theorem str_data_append (a b : String) : (a ++ b).data = a.data ++ b.data := by
  cases a
  cases b
  rfl

theorem chPre_append (p x : List Char) : chPre p (p ++ x) = true := by
  induction p with
  | nil => rfl
  | cons c p ih => simp [chPre, ih]

theorem strStarts_append (pat x : String) : strStarts (pat ++ x) pat = true := by
  simp [strStarts, str_data_append, chPre_append]

theorem truthyS_of_strStarts {t pat : String} (hp : pat.data ≠ []) (h : strStarts t pat = true) :
    truthyS t = true := by
  cases hpd : pat.data with
  | nil => exact absurd hpd hp
  | cons c cs =>
    cases htd : t.data with
    | nil =>
      simp only [strStarts] at h
      rw [hpd, htd] at h
      simp [chPre] at h
    | cons d ds => simp [truthyS, htd]

theorem truthyS_of_trim {s : String} (h : truthyS (jsTrim s) = true) : truthyS s = true := by
  by_contra hs
  simp only [truthyS, Bool.not_eq_true, Bool.not_eq_false'] at hs
  have hnil : s.data = [] := List.isEmpty_iff.mp hs
  have : jsTrim s = "" := by
    cases s
    simp_all [jsTrim]
  rw [this] at h
  simp [truthyS] at h

theorem jsOr_eq_of_truthy {t : String} (h : truthyS t = true) (b : String) :
    jsOr (some t) b = t := by
  simp only [truthyS, Bool.not_eq_true'] at h
  simp [jsOr, h]

theorem linksDistinct_of_pairwise {l : List Item}
    (h : l.Pairwise (fun a b => jsTrim a.link ≠ jsTrim b.link)) :
    linksDistinct l = true := by
  induction l with
  | nil => rfl
  | cons a l ih =>
    rw [List.pairwise_cons] at h
    simp only [linksDistinct, Bool.and_eq_true]
    exact ⟨List.all_eq_true.mpr (fun b hb => by simp [h.1 b hb]), ih h.2⟩

theorem sortedByDateDesc_of_pairwise {l : List Item}
    (hv : ∀ it ∈ l, it.date.isSome = true)
    (h : l.Pairwise (fun a b => itemLE a b = true)) :
    sortedByDateDesc l = true := by
  induction l with
  | nil => rfl
  | cons a l ih =>
    cases l with
    | nil => rfl
    | cons b m =>
      rw [List.pairwise_cons] at h
      have hab := h.1 b (by simp)
      simp only [sortedByDateDesc, Bool.and_eq_true]
      constructor
      · obtain ⟨x, hx⟩ := Option.isSome_iff_exists.mp (hv a (by simp))
        obtain ⟨y, hy⟩ := Option.isSome_iff_exists.mp (hv b (by simp))
        simp only [itemLE, hx, hy, decide_eq_true_eq] at hab
        simp only [dateGe, hx, hy, decide_eq_true_eq, ge_iff_le]
        exact hab
      · exact ih (fun it h' => hv it (by simp [h'])) h.2

theorem dedupeAux_eq_spec (seen : List String) (l : List Item) (hseen : "" ∉ seen) :
    dedupeAux seen l =
      dedupeSpec (l.filter (fun it => !(seen.contains (jsTrim it.link)))) := by
  induction l generalizing seen with
  | nil => simp [dedupeAux, dedupeSpec]
  | cons a l ih =>
    by_cases hk : truthyS (jsTrim a.link) = true
    · by_cases hc : jsTrim a.link ∈ seen
      · have hguard : (!truthyS (jsTrim a.link) || seen.contains (jsTrim a.link)) = true := by
          simp [hc]
        have hstep : dedupeAux seen (a :: l) = dedupeAux seen l := by
          simp only [dedupeAux, if_pos hguard]
        have hfa : ¬ ((fun it => !(seen.contains (jsTrim it.link))) a = true) := by
          simp [hc]
        rw [hstep, @List.filter_cons_of_neg Item (fun it => !(seen.contains (jsTrim it.link))) a l hfa]
        exact ih seen hseen
      · have hguard : ¬ ((!truthyS (jsTrim a.link) || seen.contains (jsTrim a.link)) = true) := by
          simp [hk, hc]
        have hstep : dedupeAux seen (a :: l) = a :: dedupeAux (jsTrim a.link :: seen) l := by
          simp only [dedupeAux, if_neg hguard]
        have hfa : (fun it => !(seen.contains (jsTrim it.link))) a = true := by
          simp [hc]
        have hkey : jsTrim a.link ≠ "" := by
          intro hEq
          rw [hEq] at hk
          simp [truthyS] at hk
        rw [hstep, @List.filter_cons_of_pos Item (fun it => !(seen.contains (jsTrim it.link))) a l hfa]
        rw [dedupeSpec]
        rw [if_neg hkey]
        congr 1
        rw [List.filter_filter]
        rw [ih (jsTrim a.link :: seen) (by simp [Ne.symm hkey, hseen])]
        congr 1
        apply List.filter_congr
        intro x _
        simp only [List.contains_cons, Bool.not_or]
        by_cases hxk : jsTrim x.link = jsTrim a.link
        · simp [hxk]
        · simp [hxk, beq_iff_eq]
    · have hguard : (!truthyS (jsTrim a.link) || seen.contains (jsTrim a.link)) = true := by
        simp only [Bool.not_eq_true] at hk
        simp [hk]
      have hstep : dedupeAux seen (a :: l) = dedupeAux seen l := by
        simp only [dedupeAux, if_pos hguard]
      have hkey : jsTrim a.link = "" := by
        simp only [truthyS, Bool.not_eq_true, Bool.not_eq_false'] at hk
        have hnil := List.isEmpty_iff.mp hk
        cases hjt : jsTrim a.link
        rw [hjt] at hnil
        simp only [] at hnil
        simp [hnil]
      have hfa : (fun it => !(seen.contains (jsTrim it.link))) a = true := by
        have : jsTrim a.link ∉ seen := by
          rw [hkey]
          exact hseen
        simp [this]
      rw [hstep, @List.filter_cons_of_pos Item (fun it => !(seen.contains (jsTrim it.link))) a l hfa]
      rw [dedupeSpec]
      rw [if_pos hkey]
      exact ih seen hseen

theorem videoFromEnclosure_spec {it : RawItem} {v : MediaRef}
    (h : videoFromEnclosure it = some v) :
    truthyS v.type = true ∧ strStarts v.type "video/" = true := by
  cases he : it.enclosure with
  | none => simp [videoFromEnclosure, he] at h
  | some e =>
    simp only [videoFromEnclosure, he] at h
    by_cases hg : (truthyO e.url && strStarts (jsOr e.type "") "video/") = true
    · rw [if_pos hg] at h
      injection h with h
      subst h
      simp only [Bool.and_eq_true] at hg
      obtain ⟨_, h2⟩ := hg
      cases het : e.type with
      | none =>
        rw [het] at h2
        simp only [jsOr] at h2
        exact absurd h2 (by decide)
      | some t =>
        rw [het] at h2
        by_cases hte : t.data.isEmpty = true
        · rw [show jsOr (some t) "" = "" from by simp [jsOr, hte]] at h2
          exact absurd h2 (by decide)
        · rw [show jsOr (some t) "" = t from by
            simp only [Bool.not_eq_true] at hte
            simp [jsOr, hte]] at h2
          simp only [het, Option.getD_some]
          exact ⟨by simp [truthyS, hte], h2⟩
    · rw [if_neg hg] at h; cases h

theorem videoFromMediaGroup_spec {it : RawItem} {v : MediaRef}
    (h : videoFromMediaGroup it = some v) :
    truthyS v.type = true ∧ strStarts v.type "video/" = true := by
  cases hg : it.mediaGroup with
  | none => simp [videoFromMediaGroup, hg] at h
  | some g =>
    simp only [videoFromMediaGroup, hg] at h
    cases hs : videoScanList g.data with
    | none => rw [hs] at h; cases h
    | some p =>
      rw [hs] at h
      simp only [Option.map_some'] at h
      injection h with h
      subst h
      refine ⟨?_, strStarts_append "video/" ⟨p.2⟩⟩
      simp [truthyS, str_data_append]

theorem videoFromLink_spec {it : RawItem} {v : MediaRef}
    (h : videoFromLink it = some v) : v.type = "text/html" := by
  cases hl : it.link with
  | none => simp [videoFromLink, hl] at h
  | some l =>
    simp only [videoFromLink, hl] at h
    by_cases hg : (truthyS l && jsIncludes l "youtube.com/watch") = true
    · rw [if_pos hg] at h
      injection h with h
      subst h
      rfl
    · rw [if_neg hg] at h; cases h

theorem videoFromContent_spec {it : RawItem} {v : MediaRef}
    (h : videoFromContent it = some v) :
    truthyS v.type = true ∧ strStarts v.type "video/" = true := by
  unfold videoFromContent at h
  cases hs : videoScanList (jsOr it.contentEncoded (jsOr it.content "")).data with
  | none => rw [hs] at h; cases h
  | some p =>
    rw [hs] at h
    simp only [Option.map_some'] at h
    injection h with h
    subst h
    refine ⟨?_, strStarts_append "video/" ⟨p.2⟩⟩
    simp [truthyS, str_data_append]

/-- C10: whenever `pickVideo` returns a video reference, its media type is a
non-empty string that either begins with `video/` or equals `text/html`, so
the renderer's dispatch on `item.video.type` is well-defined. -/
theorem c10_pickVideo_type_invariant (it : RawItem) (v : MediaRef)
    (h : pickVideo it = some v) :
    truthyS v.type = true ∧
      (strStarts v.type "video/" = true ∨ v.type = "text/html") := by
  cases h1 : videoFromEnclosure it with
  | some w =>
    simp only [pickVideo, h1] at h
    injection h with h
    subst h
    obtain ⟨ha, hb⟩ := videoFromEnclosure_spec h1
    exact ⟨ha, Or.inl hb⟩
  | none =>
    simp only [pickVideo, h1] at h
    cases h2 : videoFromMediaGroup it with
    | some w =>
      rw [h2] at h
      injection h with h
      subst h
      obtain ⟨ha, hb⟩ := videoFromMediaGroup_spec h2
      exact ⟨ha, Or.inl hb⟩
    | none =>
      rw [h2] at h
      cases h3 : videoFromLink it with
      | some w =>
        rw [h3] at h
        injection h with h
        subst h
        have hb := videoFromLink_spec h3
        exact ⟨by rw [hb]; decide, Or.inr hb⟩
      | none =>
        rw [h3] at h
        obtain ⟨ha, hb⟩ := videoFromContent_spec h
        exact ⟨ha, Or.inl hb⟩

theorem c10_witness :
    truthyS (MediaRef.mk "http://e/v.mp4" "video/mp4").type = true ∧
      (strStarts (MediaRef.mk "http://e/v.mp4" "video/mp4").type "video/" = true ∨
        (MediaRef.mk "http://e/v.mp4" "video/mp4").type = "text/html") :=
  c10_pickVideo_type_invariant itEncVid (MediaRef.mk "http://e/v.mp4" "video/mp4") (by decide)

/-- C7: a raw item carrying both an image-typed enclosure (with a URL) and an
`<img src="...">` occurrence in its HTML content gets the enclosure URL from
`pickImage`, not the URL scraped from the content. -/
theorem c7_image_priority (it : RawItem) (e : Enclosure) (u cap : String)
    (he : it.enclosure = some e) (hu : e.url = some u) (hut : truthyS u = true)
    (ht : strStarts (jsOr e.type "") "image/" = true)
    (_hscan : imageFromHtml it = some cap) :
    pickImage it = some u := by
  have h1 : imageFromEnclosure it = some u := by
    simp only [imageFromEnclosure, he]
    rw [if_pos (by simp [truthyO, hu, hut, ht])]
    exact hu
  simp only [pickImage, h1]

theorem c7_witness :
    pickImage itEncImg = some "http://e/x.png" :=
  c7_image_priority itEncImg
    (Enclosure.mk (some "http://e/x.png") (some "image/png"))
    "http://e/x.png" "http://c/s.jpg" rfl rfl (by decide) (by decide) (by decide)

/-- C8: a raw item carrying both a video-typed enclosure (with a URL) and a
YouTube watch link gets the enclosure URL with its declared media type from
`pickVideo`, not the watch link with type `text/html`. -/
theorem c8_video_priority (it : RawItem) (e : Enclosure) (u t l : String)
    (he : it.enclosure = some e) (hu : e.url = some u) (hut : truthyS u = true)
    (het : e.type = some t) (ht : strStarts t "video/" = true)
    (_hl : it.link = some l) (_hyt : jsIncludes l "youtube.com/watch" = true) :
    pickVideo it = some (MediaRef.mk u t) := by
  have htt : truthyS t = true := truthyS_of_strStarts (by decide) ht
  have h1 : videoFromEnclosure it = some (MediaRef.mk u t) := by
    simp only [videoFromEnclosure, he]
    rw [if_pos (by
      rw [het, jsOr_eq_of_truthy htt]
      simp [truthyO, hu, hut, ht])]
    rw [hu, het]
    rfl
  simp only [pickVideo, h1]

theorem c8_witness :
    pickVideo itEncVid = some (MediaRef.mk "http://e/v.mp4" "video/mp4") :=
  c8_video_priority itEncVid
    (Enclosure.mk (some "http://e/v.mp4") (some "video/mp4"))
    "http://e/v.mp4" "video/mp4" "https://www.youtube.com/watch?v=abc"
    rfl rfl (by decide) rfl (by decide) rfl (by decide)

/-- C1: after any refresh, every Item in the Cache has a non-empty link, and
no two Items in the Cache have the same link value, uniqueness judged on the
link trimmed of surrounding whitespace. -/
theorem c1_cache_link_invariant (dp : String → Option Int) (now : Int) (nowStr : String)
    (sources : List SourceSim) :
    ((refresh dp now nowStr sources).items.all (fun it => truthyS it.link)) = true ∧
    linksDistinct (refresh dp now nowStr sources).items = true := by
  have hperm := jsSortBy_perm itemLE (dedupe (normalizePass dp now (collectAll nowStr sources)))
  constructor
  · apply List.all_eq_true.mpr
    intro it hit
    have hmem : it ∈ dedupe (normalizePass dp now (collectAll nowStr sources)) :=
      hperm.mem_iff.mp hit
    obtain ⟨_, h2, _⟩ := mem_dedupeAux hmem
    exact truthyS_of_trim h2
  · exact linksDistinct_of_pairwise
      ((List.Perm.pairwise_iff (fun hxy => Ne.symm hxy) hperm).mpr (pairwise_dedupeAux [] _))

/-- C2 counterexample: a refresh whose sources supply an unparseable date
string installs a Cache that is not date-descending under the JS `>=`
comparison — the claim fails as stated ("regardless of what date strings the
sources supplied"). -/
theorem c2_counterexample :
    sortedByDateDesc (refresh dpX 0 "now" [srcBadDates]).items = false := by decide

/-- C2 (amended): after any refresh in which every cached item's date is a
valid timestamp, the Cache's item sequence satisfies `a.date >= b.date` for
every adjacent pair; an unparseable date string produces an Invalid Date,
which the sort comparator treats as equal to everything and which fails every
`>=` comparison, so the invariant only holds on valid dates. -/
theorem c2_sorted_when_dates_valid (dp : String → Option Int) (now : Int) (nowStr : String)
    (sources : List SourceSim)
    (hvalid : ((refresh dp now nowStr sources).items.all (fun it => it.date.isSome)) = true) :
    sortedByDateDesc (refresh dp now nowStr sources).items = true := by
  have hperm := jsSortBy_perm itemLE (dedupe (normalizePass dp now (collectAll nowStr sources)))
  have hv : ∀ it ∈ (refresh dp now nowStr sources).items, it.date.isSome = true :=
    fun it hit => List.all_eq_true.mp hvalid it hit
  have hvd : ∀ it ∈ dedupe (normalizePass dp now (collectAll nowStr sources)),
      it.date.isSome = true :=
    fun it hit => hv it (hperm.mem_iff.mpr hit)
  apply sortedByDateDesc_of_pairwise hv
  apply pairwise_jsSortBy
  · intro x hx y hy z hz hxy hyz
    obtain ⟨a, ha⟩ := Option.isSome_iff_exists.mp (hvd x hx)
    obtain ⟨b, hb⟩ := Option.isSome_iff_exists.mp (hvd y hy)
    obtain ⟨c, hc⟩ := Option.isSome_iff_exists.mp (hvd z hz)
    simp only [itemLE, ha, hb, decide_eq_true_eq] at hxy
    simp only [itemLE, hb, hc, decide_eq_true_eq] at hyz
    simp only [itemLE, ha, hc, decide_eq_true_eq]
    omega
  · intro x hx y hy
    obtain ⟨a, ha⟩ := Option.isSome_iff_exists.mp (hvd x hx)
    obtain ⟨b, hb⟩ := Option.isSome_iff_exists.mp (hvd y hy)
    simp only [itemLE, ha, hb, decide_eq_true_eq]
    omega

theorem c2_witness :
    sortedByDateDesc (refresh dpX 0 "now" [srcGoodDates]).items = true :=
  c2_sorted_when_dates_valid dpX 0 "now" [srcGoodDates] (by decide)

/-- C3 counterexample: a normalized item whose link is all whitespace is the
first (and only) item bearing its trimmed key, yet dedup drops it — the
first-seen rule fails as stated for the empty key. -/
theorem c3_counterexample :
    (normalizePass dpX 0 [rawWsLink]).head? = some (normalizeItem dpX 0 rawWsLink) ∧
    normalizeItem dpX 0 rawWsLink ∉ dedupe (normalizePass dpX 0 [rawWsLink]) := by
  decide

/-- C3 (amended): deduplication is strict first-seen except on the empty key:
an item whose link trims to the empty string is dropped entirely; for every
non-empty trimmed key, the first item bearing it is kept unchanged and every
later item with the same key is dropped, regardless of source or content
(`dedupeSpec` is exactly that rule). -/
theorem c3_dedupe_first_seen (l : List Item) : dedupe l = dedupeSpec l := by
  have h := dedupeAux_eq_spec [] l (by simp)
  simpa [dedupe] using h

/-- C4: per-source fetch/parse failures are contained — a source whose JSON
and XML attempts both fail contributes zero items; each source's
contribution is independent of the others; and when every source fails the
refresh still installs a valid empty Cache with the fresh `lastBuild`. -/
theorem c4_refresh_failure_semantics (dp : String → Option Int) (now : Int) (nowStr : String) :
    (∀ s : SourceSim, tryParseJSONFeed nowStr s = none → s.xmlResult = none →
      collectOne nowStr s = []) ∧
    (∀ pre post : List SourceSim, ∀ s : SourceSim,
      collectAll nowStr (pre ++ s :: post) =
        collectAll nowStr pre ++ collectOne nowStr s ++ collectAll nowStr post) ∧
    (∀ sources : List SourceSim,
      (∀ s ∈ sources, tryParseJSONFeed nowStr s = none ∧ s.xmlResult = none) →
      refresh dp now nowStr sources = { items := [], lastBuild := now }) := by
  refine ⟨?_, ?_, ?_⟩
  · intro s h1 h2
    simp [collectOne, h1, h2]
  · intro pre post s
    simp [collectAll, List.append_assoc]
  · intro sources hfail
    have hcoll : collectAll nowStr sources = [] := by
      simp only [collectAll]
      rw [List.flatten_eq_nil_iff]
      intro xs hxs
      obtain ⟨s, hs, rfl⟩ := List.mem_map.mp hxs
      obtain ⟨h1, h2⟩ := hfail s hs
      simp [collectOne, h1, h2]
    simp [refresh, hcoll, normalizePass, dedupe, dedupeAux, jsSortBy]

theorem c4_witness :
    collectOne "now" srcFailBoth = [] ∧
    refresh dpX 0 "now" [srcFailBoth] = { items := [], lastBuild := 0 } := by
  constructor
  · exact (c4_refresh_failure_semantics dpX 0 "now").1 srcFailBoth rfl rfl
  · apply (c4_refresh_failure_semantics dpX 0 "now").2.2 [srcFailBoth]
    intro s hs
    rw [List.mem_singleton.mp hs]
    exact ⟨rfl, rfl⟩

/-- C5 counterexample: a raw item with a present but unparseable date string
normalizes to an Invalid Date (`none`), not to the current time — so
"normalization never yields a failed/invalid date" fails as stated. -/
theorem c5_counterexample :
    (normalizeItem dpX 0 rawBadDate).date = none := by decide

/-- C5 (amended): the normalized date is the JS `Date` parse of the first
truthy date-like field (`isoDate`, else `pubDate`); the current time is
substituted only when neither field is present and truthy; a present but
unparseable field is passed to the parser and yields its Invalid Date. -/
theorem c5_date_normalization (dp : String → Option Int) (now : Int) (it : RawItem) :
    (truthyO it.isoDate = false → truthyO it.pubDate = false →
      (normalizeItem dp now it).date = some now) ∧
    (∀ s : String, it.isoDate = some s → truthyS s = true →
      (normalizeItem dp now it).date = dp s) ∧
    (∀ s : String, truthyO it.isoDate = false → it.pubDate = some s → truthyS s = true →
      (normalizeItem dp now it).date = dp s) := by
  refine ⟨?_, ?_, ?_⟩
  · intro h1 h2
    simp [normalizeItem, jsOrO, h1, h2]
  · intro s hs ht
    simp [normalizeItem, jsOrO, hs, truthyO, ht]
  · intro s h1 hs ht
    simp only [normalizeItem, jsOrO, h1, hs]
    simp [truthyO, ht]

theorem c5_witness :
    (normalizeItem dpX 0 rawIsoOnly).date = dpX "2024-01-01" ∧
    (normalizeItem dpX 0 rawPubOnly).date = dpX "2024-01-02" ∧
    (normalizeItem dpX 0 rawNoDate).date = some 0 :=
  ⟨(c5_date_normalization dpX 0 rawIsoOnly).2.1 "2024-01-01" rfl (by decide),
   (c5_date_normalization dpX 0 rawPubOnly).2.2 "2024-01-02" rfl rfl (by decide),
   (c5_date_normalization dpX 0 rawNoDate).1 rfl rfl⟩

/-- C6: the JSON-Feed interpretation applies exactly when the response's
declared content type indicates a JSON media type and the parsed body is an
object with a top-level `items` array; in every other case the source is
handed to the RSS/Atom XML path rather than treated as empty. -/
theorem c6_json_branch_selection (nowStr : String) (s : SourceSim) :
    ((tryParseJSONFeed nowStr s).isSome = true ↔ jsonBranchApplies s) ∧
    (∀ feed : XMLFeed, tryParseJSONFeed nowStr s = none → s.xmlResult = some feed →
      collectOne nowStr s = feed.items.map (tagSource s.url)) := by
  constructor
  · constructor
    · intro h
      cases hf : s.fetchResult with
      | none => simp [tryParseJSONFeed, hf] at h
      | some res =>
        simp only [tryParseJSONFeed, hf] at h
        by_cases hct : (jsIncludes (jsOr res.contentType "") "application/json" ||
            jsIncludes (jsOr res.contentType "") "text/json") = true
        · rw [if_neg (by simp [hct])] at h
          cases hb : res.body with
          | none => rw [hb] at h; simp at h
          | some ob =>
            rw [hb] at h
            cases ob with
            | none => simp at h
            | some data =>
              cases hit : data.items with
              | none => simp [hit] at h
              | some items =>
                exact ⟨res, hf, hct, data, hb, by simp [hit]⟩
        · rw [if_pos (by simp [Bool.not_eq_true] at hct; simp [hct])] at h
          simp at h
    · rintro ⟨res, hres, hct, data, hbody, hitems⟩
      obtain ⟨items, hit⟩ := Option.isSome_iff_exists.mp hitems
      simp [tryParseJSONFeed, hres, hct, hbody, hit]
  · intro feed h1 h2
    simp [collectOne, h1, h2]

theorem c6_witness :
    collectOne "now" srcJsonNoItems = [tagSource "uj" rawX] :=
  (c6_json_branch_selection "now" srcJsonNoItems).2 { items := [rawX] } (by decide) rfl

/-- C9: rendering is total over any well-formed Cache — `buildFeeds` builds
one entry per cached item, in cache order, and the three documents (RSS,
Atom, JSON) all describe exactly that entry sequence; an item whose optional
media/author fields are all absent still renders, with no media block, no
author and no enclosure. -/
theorem c9_render_totality (c : Cache) :
    (buildFeeds c).rss = c.items.map entryOf ∧
    (buildFeeds c).atom = (buildFeeds c).rss ∧
    (buildFeeds c).json = (buildFeeds c).rss ∧
    ((buildFeeds c).rss.map (fun en => en.id)) = c.items.map (fun it => it.link) ∧
    (∀ item ∈ c.items, item.imageUrl = none → item.video = none → item.enclosure = none →
      item.authorName = "" →
      (entryOf item).author = none ∧ (entryOf item).enclosure = none ∧
      (entryOf item).content = String.intercalate "\n"
        ((if truthyS item.description = true then [item.description] else []) ++
         ["<p><small>Source: " ++ jsTemplate item.source ++ "</small></p>"])) := by
  refine ⟨rfl, rfl, rfl, ?_, ?_⟩
  · simp only [buildFeeds, List.map_map]
    rfl
  · intro item _ h1 h2 h3 h4
    refine ⟨?_, ?_, ?_⟩
    · simp [entryOf, h4, truthyS]
    · simp [entryOf, entryEnclosure, h1, h2, h3, truthyO]
    · simp [entryOf, contentBlocksOf, h1, h2, truthyO]

theorem c9_witness :
    (entryOf itemNull).author = none ∧ (entryOf itemNull).enclosure = none ∧
    (entryOf itemNull).content = String.intercalate "\n"
      ((if truthyS itemNull.description = true then [itemNull.description] else []) ++
       ["<p><small>Source: " ++ jsTemplate itemNull.source ++ "</small></p>"]) :=
  (c9_render_totality { items := [itemNull], lastBuild := 0 }).2.2.2.2 itemNull
    (by decide) rfl rfl rfl rfl

end SocialRSS
